import Mathlib

/-!
Shallow embedding of the AIO Readiness Checker repository
(`aio_demo_app.py` and `pdf_generator.py`).

Python strings are modelled as `List Char` (a Python `str` is a sequence
of code points, and slicing/length in the source are code-point based).
Python helpers (`str.strip`, `str.split`, `str.count`, `str.lower`, ...)
are modelled by the `py*` functions below; `str.lower`/`str.upper` are
modelled on the ASCII range (`Char.toLower`/`Char.toUpper`), which covers
every literal the program manipulates, and `str.strip` whitespace is
modelled by `Char.isWhitespace`.
-/

namespace App

/-- Python `str.rstrip()`: drop trailing whitespace. -/
def pyRstrip (s : List Char) : List Char :=
  (s.reverse.dropWhile Char.isWhitespace).reverse

/-- Python `str.strip()`: drop leading and trailing whitespace. -/
def pyStrip (s : List Char) : List Char :=
  pyRstrip (s.dropWhile Char.isWhitespace)

/-- Python `str.lower()` (ASCII range). -/
def pyLower (s : List Char) : List Char :=
  s.map Char.toLower

/-- Python `str.split(sep)` for a one-character separator: splits at every
occurrence of `sep`, keeping empty pieces; `"".split(sep) == [""]`. -/
def pySplit (sep : Char) : List Char → List (List Char)
  | [] => [[]]
  | c :: t =>
    if c = sep then
      [] :: pySplit sep t
    else
      match pySplit sep t with
      | [] => [[c]]
      | r :: rs => (c :: r) :: rs

/-- Fuel-driven core of Python `str.count`: number of non-overlapping
occurrences of `needle`, scanning left to right.  One unit of fuel is
spent per step and each step consumes at least one character of `hay`,
so `hay.length` fuel is always enough (for a non-empty `needle`, which is
the only way the program calls it). -/
def countOccsAux (needle : List Char) : Nat → List Char → Nat
  | 0, _ => 0
  | _ + 1, [] => 0
  | fuel + 1, c :: t =>
    if needle.isPrefixOf (c :: t) then
      1 + countOccsAux needle fuel (t.drop (needle.length - 1))
    else
      countOccsAux needle fuel t

/-- Python `hay.count(needle)` for non-empty `needle`. -/
def countOccs (needle hay : List Char) : Nat :=
  countOccsAux needle hay.length hay

/-- Python `needle in hay`: substring containment. -/
def pyIn (needle : List Char) : List Char → Bool
  | [] => needle.isEmpty
  | c :: t => needle.isPrefixOf (c :: t) || pyIn needle t

/-! ## DOM model

`Soup` models the parts of the parsed HTML document
(`BeautifulSoup(html, "html.parser")`) that the program queries:

* `h1` models `soup.find("h1")` together with the
  `find_next_sibling("p")` text of that element;
* `h2h3` models `soup.find_all(["h2", "h3"])` in document order, each
  entry carrying its tag kind, `get_text(strip=True)` and the
  `find_next_sibling("p")` text;
* `bodyText` models `soup.get_text(separator=" ", strip=True)`;
* `hasLdJson` models
  `bool(soup.find("script", {"type": "application/ld+json"}))`.
-/

/-- An `h1` element: its stripped text and the stripped text of its next
`p` sibling, when one exists. -/
structure H1Tag where
  text : List Char
  nextP : Option (List Char)
deriving DecidableEq

/-- The tag kind returned by `find_all(["h2", "h3"])`. -/
inductive HKind where
  | h2
  | h3
deriving DecidableEq

/-- `tag.name` for an `h2`/`h3` element. -/
def HKind.name : HKind → List Char
  | .h2 => ['h', '2']
  | .h3 => ['h', '3']

/-- An `h2` or `h3` element: kind, stripped text, next-`p`-sibling text. -/
structure H23Tag where
  kind : HKind
  text : List Char
  nextP : Option (List Char)
deriving DecidableEq

/-- The queried view of a parsed HTML document. -/
structure Soup where
  h1 : Option H1Tag
  h2h3 : List H23Tag
  bodyText : List Char
  hasLdJson : Bool
deriving DecidableEq

/-! ## Content Extractor (`extract_important_sections`) -/

/-- The `parts` list built by `extract_important_sections`: the `[H1]`
line and its bulleted paragraph, then for each `h2`/`h3` a
`[H2]`/`[H3]` line and its bulleted paragraph. -/
def importantParts (soup : Soup) : List (List Char) :=
  (match soup.h1 with
   | none => []
   | some h1 =>
     ("[H1] ".toList ++ h1.text) ::
       (match h1.nextP with
        | none => []
        | some p => ["- ".toList ++ p])) ++
  soup.h2h3.flatMap (fun tag =>
    ('[' :: tag.kind.name.map Char.toUpper ++ "] ".toList ++ tag.text) ::
      (match tag.nextP with
       | none => []
       | some p => ["- ".toList ++ p]))

/-- `extract_important_sections(soup)`: the important parts joined by
newlines and truncated to 3000 characters, falling back to the full
visible text (truncated to 3000) when no part was collected. -/
def extract_important_sections (soup : Soup) : List Char :=
  let parts := importantParts soup
  if parts = [] then
    soup.bodyText.take 3000
  else
    (List.intercalate ['\n'] parts).take 3000

/-! ## Scoring heuristics (`aio_demo_app.py`, diagnosis loop) -/

/-- Answerability score from the full-text length (`text_len`). -/
def ans_score (text_len : Nat) : Nat :=
  if text_len > 8000 then 100
  else if text_len > 4000 then 80
  else if text_len > 2000 then 60
  else if text_len > 1000 then 40
  else 20

/-- Structured-data / heading score: base 50, +30 for an
`application/ld+json` script tag, +20 for an `h1`. -/
def struct_score (has_ld has_h1 : Bool) : Nat :=
  50 + (if has_ld then 30 else 0) + (if has_h1 then 20 else 0)

/-- The FAQ/HowTo keyword list. -/
def faqKeywords : List (List Char) :=
  ["よくある質問".toList, "FAQ".toList, "Q&A".toList, "質問".toList,
   "How to".toList, "使い方".toList]

/-- FAQ/HowTo score: 80 when any keyword occurs (case-insensitively) in
the full text, 20 otherwise. -/
def faq_score (full_text : List Char) : Nat :=
  if faqKeywords.any (fun k => pyIn (pyLower k) (pyLower full_text)) then 80
  else 20

/-- `hostname.split(".")[0]`: the first dot-delimited label. -/
def brand_token (hostname : List Char) : List Char :=
  (pySplit '.' hostname).headD []

/-- `full_text.lower().count(brand_token.lower()) if brand_token else 0`. -/
def brand_count (hostname full_text : List Char) : Nat :=
  if brand_token hostname = [] then 0
  else countOccs (pyLower (brand_token hostname)) (pyLower full_text)

/-- Brand/trust score from the brand-token occurrence count. -/
def brand_score (hostname full_text : List Char) : Nat :=
  let c := brand_count hostname full_text
  if c > 30 then 100
  else if c > 10 then 80
  else if c > 3 then 60
  else if c > 0 then 40
  else 20

/-- `round(0.35*a + 0.25*s + 0.25*f + 0.15*b)`.
The exact value of the weighted sum is `(7*a + 5*s + 5*f + 3*b) / 20`,
and on every reachable score combination (`a,b ∈ {20,40,60,80,100}`,
`s ∈ {50,70,80,100}`, `f ∈ {20,80}`) Python's `round` of the
floating-point expression coincides with round-half-to-even of that
exact rational, which is what this definition computes. -/
def total_score (a s f b : Nat) : Nat :=
  let n := 7 * a + 5 * s + 5 * f + 3 * b
  let q := n / 20
  let r := n % 20
  if r < 10 then q
  else if r > 10 then q + 1
  else if q % 2 = 0 then q else q + 1

/-! ## Orchestrator: the per-URL diagnosis loop -/

/-- A user-supplied URL: its raw text and the value of
`urlparse(url).hostname or ""` (URL parsing is an external library; its
result is carried as data). -/
structure Url where
  raw : List Char
  hostname : List Char
deriving DecidableEq

/-- One result-dict appended to `results` (keys: URL, ステータス,
総合スコア, 回答性, 構造化, FAQ/HowTo, ブランド性, 本文要約). -/
structure Row where
  url : List Char
  status : List Char
  total : Nat
  ans : Nat
  structured : Nat
  faq : Nat
  brand : Nat
  honbun : List Char
deriving DecidableEq

/-- The body of the `for url in urls` loop: `fetch` models
`requests.get` + `BeautifulSoup` (the whole `try` block), returning the
parsed document or the exception's description.  On failure the
`except` branch appends a zero-scored row with status
`"取得失敗: {e}"` and continues. -/
def processOne (fetch : Url → Except (List Char) Soup) (url : Url) : Row :=
  match fetch url with
  | .error e =>
    { url := url.raw
      status := "取得失敗: ".toList ++ e
      total := 0, ans := 0, structured := 0, faq := 0, brand := 0
      honbun := [] }
  | .ok soup =>
    let full_text := soup.bodyText
    let text_len := full_text.length
    let important_text := extract_important_sections soup
    let a := ans_score text_len
    let s := struct_score soup.hasLdJson soup.h1.isSome
    let f := faq_score full_text
    let b := brand_score url.hostname full_text
    { url := url.raw
      status := "OK".toList
      total := total_score a s f b
      ans := a, structured := s, faq := f, brand := b
      honbun := important_text }

/-- The whole loop: each URL's row is appended to `results` in turn. -/
def runBatch (fetch : Url → Except (List Char) Soup) (urls : List Url) :
    List Row :=
  urls.foldl (fun acc url => acc ++ [processOne fetch url]) []

/-! ## LLM detailed diagnosis (`analyze_page_with_llm`)

The function builds a prompt and issues one chat-completion request
inside a `try` block.  The outcome of that request
(`client.chat.completions.create(...)` followed by reading
`response.choices[0].message.content`) is modelled as data: either the
returned content, a `RateLimitError`, or any other exception with its
description `str(e)`.  The function itself is total: every outcome is
mapped to a Markdown string. -/

/-- Outcome of the chat-completion call inside the `try` block. -/
inductive LLMResult where
  | success (content : List Char)
  | rateLimitError
  | otherError (e : List Char)
deriving DecidableEq

/-- The fixed Markdown block returned on `RateLimitError`. -/
def rateLimitBlock : List Char :=
  ("#### ※API利用上限に達しました\n\n" ++
   "- Azure OpenAI API のレート制限／利用上限に達している可能性があります。\n" ++
   "- しばらく時間をおいて再度お試しください。\n" ++
   "- 継続利用する場合は、Azureポータルの Usage / Billing からクレジット残高をご確認ください。").toList

/-- The Markdown block returned on any other exception `e`. -/
def errorBlock (e : List Char) : List Char :=
  "#### ※AI詳細診断でエラーが発生しました\n\n- エラー内容: ".toList ++ e ++
    "\n- プロンプトや入力内容を見直すか、時間をおいて再度お試しください。".toList

/-- `analyze_page_with_llm`, as a function of the LLM call's outcome. -/
def analyze_page_with_llm (call : LLMResult) : List Char :=
  match call with
  | .success content => content
  | .rateLimitError => rateLimitBlock
  | .otherError e => errorBlock e

/-- The first line of a Markdown block (its heading when it starts with
`####`). -/
def firstLine (s : List Char) : List Char :=
  s.takeWhile (fun c => c ≠ '\n')

end App

namespace PDF

open App (pyRstrip pyStrip pySplit)

/-!
## `pdf_generator.py`

The renderer draws via `fpdf` (`self.cell`, `self.multi_cell`,
`self.ln`, font changes).  The embedding records what content is drawn:
`add_table` returns the rows of cell texts actually emitted (header row
first), and `add_markdown` returns the sequence of content-drawing
events.  The three inline-markup `re.sub` substitutions (inline code,
bold, emphasis) used by `_add_heading`, `_add_list_item`,
`_add_text_with_formatting` and `_add_table` are one fixed text
transformation; it is abstracted as the parameter `st`, which none of
the verified properties depend on. -/

/-- `parse_row`: split on `|`, strip each cell, keep non-empty cells. -/
def parse_row (row : List Char) : List (List Char) :=
  ((pySplit '|' row).map pyStrip).filter (fun cell => cell ≠ [])

/-- Character class of `re.match(r'^[\s\-:]+$', ...)`. -/
def isSepCellChar (c : Char) : Bool :=
  c.isWhitespace || c = '-' || c = ':'

/-- `re.match(r'^[\s\-:]+$', cell)`: non-empty and all characters in the
class. -/
def sepCellMatch (cell : List Char) : Bool :=
  !cell.isEmpty && cell.all isSepCellChar

/-- `is_separator_row`: no cells → `False`; otherwise every parsed cell
matches the separator pattern. -/
def is_separator_row (row : List Char) : Bool :=
  let cells := parse_row row
  if cells = [] then false else cells.all sepCellMatch

/-- The per-data-cell transform: inline-markup stripping `st`, then
truncation of texts longer than 30 characters to 30 plus `...`. -/
def renderCell (st : List Char → List Char) (cell : List Char) : List Char :=
  let t := st cell
  if t.length > 30 then t.take 30 ++ "...".toList else t

/-- `_add_table`: the rows of cell texts drawn (header first).  Fewer
than two collected lines, or an empty parsed header, draw nothing. -/
def add_table (st : List Char → List Char) (table_lines : List (List Char)) :
    List (List (List Char)) :=
  match table_lines with
  | l0 :: l1 :: rest =>
    let data_rows := if is_separator_row l1 then rest else l1 :: rest
    let header_cells := parse_row l0
    if header_cells = [] then []
    else
      header_cells.map st ::
        data_rows.filterMap (fun row =>
          if is_separator_row row then none
          else
            let cells := parse_row row
            if cells.length ≠ header_cells.length then none
            else if cells.all (fun cell => pyStrip cell = []) then none
            else some (cells.map (renderCell st)))
  | _ => []

/-- A content-drawing event of `add_markdown`. -/
inductive Event where
  | heading (level : Nat) (text : List Char)
  | tableRow (cells : List (List Char))
  | listItem (text : List Char)
  | paragraph (text : List Char)
deriving DecidableEq

/-- `re.sub(r"^[\s]*[-*]\s+", "", line).strip()`: the list-marker strip.
The pattern requires at least one whitespace character after the
marker; when it does not match, `re.sub` leaves the line unchanged. -/
def strip_list_marker (line : List Char) : List Char :=
  match line.dropWhile Char.isWhitespace with
  | m :: c :: t =>
    if (m = '-' ∨ m = '*') ∧ c.isWhitespace then
      pyStrip (t.dropWhile Char.isWhitespace)
    else pyStrip line
  | _ => pyStrip line

/-- Does a raw line open/continue a table block
(`lines[j].strip().startswith("|")`)? -/
def startsPipe (x : List Char) : Bool :=
  (pyStrip x).take 1 = ['|']

/-- Fuel-driven core of `add_markdown`'s `while` loop.  One unit of fuel
per processed line; each step consumes at least one line, so
`lines.length` fuel always suffices. -/
def add_markdown_aux (st : List Char → List Char) :
    Nat → List (List Char) → List Event
  | 0, _ => []
  | _ + 1, [] => []
  | fuel + 1, l :: rest =>
    let line := pyRstrip l
    if "```".toList.isPrefixOf (pyStrip line) then
      add_markdown_aux st fuel rest
    else if line = [] then
      add_markdown_aux st fuel rest
    else if line.take 1 = ['#'] then
      Event.heading (line.takeWhile (fun c => c = '#')).length
          (st (pyStrip (line.dropWhile (fun c => c = '#' ∨ c = ' ')))) ::
        add_markdown_aux st fuel rest
    else if startsPipe line then
      let tbl := line :: (rest.takeWhile startsPipe).map pyRstrip
      (add_table st tbl).map Event.tableRow ++
        add_markdown_aux st fuel (rest.dropWhile startsPipe)
    else if (pyStrip line).take 1 = ['-'] ∨ (pyStrip line).take 1 = ['*'] then
      Event.listItem (st (strip_list_marker line)) ::
        add_markdown_aux st fuel rest
    else
      Event.paragraph (st line) :: add_markdown_aux st fuel rest

/-- `add_markdown`: one forward pass over the input's lines. -/
def add_markdown (st : List Char → List Char) (lines : List (List Char)) :
    List Event :=
  add_markdown_aux st lines.length lines

/-! ## Claim-side definitions for the table-parsing refinement -/

/-- The row parse as the specification describes it: split on `|`, trim
each cell, and drop only the empty leading/trailing artifacts (keeping
interior empty cells). -/
def claimParseRow (row : List Char) : List (List Char) :=
  let cells := (pySplit '|' row).map pyStrip
  ((cells.dropWhile (fun c => c = [])).reverse.dropWhile
      (fun c => c = [])).reverse

/-- The specification's separator-row test: every parsed cell consists
only of dashes, colons, or whitespace. -/
def specIsSeparatorRow (row : List Char) : Bool :=
  (parse_row row).all (fun cell => cell.all isSepCellChar)

/-- The table pipeline as the (amended) specification describes it:
header is the first collected row, the second row is discarded exactly
when it is a separator row, and a data row is rendered exactly when it
is not separator-style, its cell count matches the header's, and not
every cell is empty after trimming. -/
def specAddTable (st : List Char → List Char) (table_lines : List (List Char)) :
    List (List (List Char)) :=
  match table_lines with
  | l0 :: l1 :: rest =>
    let header := parse_row l0
    if header = [] then []
    else
      let dataLines := if specIsSeparatorRow l1 then rest else l1 :: rest
      header.map st ::
        dataLines.filterMap (fun row =>
          let cells := parse_row row
          if !specIsSeparatorRow row && cells.length == header.length &&
              !cells.all (fun cell => (pyStrip cell).isEmpty) then
            some (cells.map (renderCell st))
          else none)
  | _ => []

end PDF

namespace Samples

/-- A parsed page with no headings. -/
def plainSoup : App.Soup :=
  { h1 := none, h2h3 := [], bodyText := "hello world".toList,
    hasLdJson := false }

/-- A parsed page with an `h1` and an `h2`. -/
def headedSoup : App.Soup :=
  { h1 := some { text := "Title".toList, nextP := some "Intro".toList }
    h2h3 := [{ kind := .h2, text := "Section".toList, nextP := none }]
    bodyText := "Title Intro Section".toList
    hasLdJson := true }

/-- A sample URL. -/
def exampleUrl : App.Url :=
  { raw := "https://example.com".toList, hostname := "example.com".toList }

/-- A fetch that always succeeds with `plainSoup`. -/
def okFetch : App.Url → Except (List Char) App.Soup :=
  fun _ => .ok plainSoup

/-- A fetch that always fails. -/
def failFetch : App.Url → Except (List Char) App.Soup :=
  fun _ => .error "boom".toList

/-- A text containing the brand token `example` 31 times. -/
def brandText : List Char :=
  (List.replicate 31 "Example ".toList).flatten

end Samples

section Theorems

/-- C2: the Answerability heuristic is a function of full-text length
only, with bands (8000,∞)→100, (4000,8000]→80, (2000,4000]→60,
(1000,2000]→40, [0,1000]→20; the boundary lengths 8000, 4000, 2000,
1000 fall into the lower band. -/
theorem ans_score_bands :
    (∀ n : Nat,
      (8000 < n → App.ans_score n = 100) ∧
      (4000 < n ∧ n ≤ 8000 → App.ans_score n = 80) ∧
      (2000 < n ∧ n ≤ 4000 → App.ans_score n = 60) ∧
      (1000 < n ∧ n ≤ 2000 → App.ans_score n = 40) ∧
      (n ≤ 1000 → App.ans_score n = 20)) ∧
    App.ans_score 8000 = 80 ∧ App.ans_score 4000 = 60 ∧
    App.ans_score 2000 = 40 ∧ App.ans_score 1000 = 20 := by
  constructor
  · intro n
    refine ⟨?_, ?_, ?_, ?_, ?_⟩ <;>
      (intro h; simp only [App.ans_score]; split_ifs <;> omega)
  · exact ⟨rfl, rfl, rfl, rfl⟩

/-- Witness for `ans_score_bands`: each band's implication discharged at
a concrete length. -/
theorem ans_score_bands_witness :
    App.ans_score 8001 = 100 ∧ App.ans_score 4001 = 80 ∧
    App.ans_score 2001 = 60 ∧ App.ans_score 1001 = 40 ∧
    App.ans_score 0 = 20 :=
  ⟨(ans_score_bands.1 8001).1 (by norm_num),
   (ans_score_bands.1 4001).2.1 (by norm_num),
   (ans_score_bands.1 2001).2.2.1 (by norm_num),
   (ans_score_bands.1 1001).2.2.2.1 (by norm_num),
   (ans_score_bands.1 0).2.2.2.2 (by norm_num)⟩

/-- C6: the structuredness score is 50 plus 30 for an
`application/ld+json` script tag plus 20 for an `h1`; both present give
exactly 100, neither gives exactly 50, and it never exceeds 100. -/
theorem struct_score_bonuses :
    (∀ has_ld has_h1 : Bool,
      App.struct_score has_ld has_h1 =
        50 + (if has_ld then 30 else 0) + (if has_h1 then 20 else 0) ∧
      App.struct_score has_ld has_h1 ≤ 100) ∧
    App.struct_score true true = 100 ∧
    App.struct_score false false = 50 := by
  refine ⟨fun has_ld has_h1 => ⟨rfl, ?_⟩, rfl, rfl⟩
  cases has_ld <;> cases has_h1 <;> simp [App.struct_score]

/-- C1: the aggregate score is the weighted blend
`0.35*A + 0.25*S + 0.25*F + 0.15*B = (7A+5S+5F+3B)/20` rounded to a
nearest integer (both bounds below say the result is within 1/2 of the
exact value), it is exactly 95 at A=100, S=100, F=80, B=100, and every
successfully fetched page's aggregate is `total_score` of its four
rule-based category scores. -/
theorem total_score_is_rounded_blend :
    (∀ a s f b : Nat,
      20 * App.total_score a s f b ≤ 7 * a + 5 * s + 5 * f + 3 * b + 10 ∧
      7 * a + 5 * s + 5 * f + 3 * b ≤ 20 * App.total_score a s f b + 10) ∧
    App.total_score 100 100 80 100 = 95 ∧
    (∀ fetch url soup, fetch url = .ok soup →
      (App.processOne fetch url).total =
        App.total_score (App.ans_score soup.bodyText.length)
          (App.struct_score soup.hasLdJson soup.h1.isSome)
          (App.faq_score soup.bodyText)
          (App.brand_score url.hostname soup.bodyText)) := by
  refine ⟨fun a s f b => ?_, rfl, fun fetch url soup h => ?_⟩
  · simp only [App.total_score]
    split_ifs <;> omega
  · simp [App.processOne, h]

/-- Witness for `total_score_is_rounded_blend`: the per-page conjunct at
a concrete successful fetch. -/
theorem total_score_is_rounded_blend_witness :
    (App.processOne Samples.okFetch Samples.exampleUrl).total =
      App.total_score (App.ans_score Samples.plainSoup.bodyText.length)
        (App.struct_score Samples.plainSoup.hasLdJson
          Samples.plainSoup.h1.isSome)
        (App.faq_score Samples.plainSoup.bodyText)
        (App.brand_score Samples.exampleUrl.hostname
          Samples.plainSoup.bodyText) :=
  total_score_is_rounded_blend.2.2 Samples.okFetch Samples.exampleUrl
    Samples.plainSoup rfl

/-- `pySplit` never returns the empty list (Python `str.split` always
yields at least one piece). -/
theorem pySplit_ne_nil (sep : Char) (l : List Char) :
    App.pySplit sep l ≠ [] := by
  cases l with
  | nil => simp [App.pySplit]
  | cons c t =>
    simp only [App.pySplit]
    split
    · simp
    · split <;> simp

/-- The first piece of `pySplit sep l` is the longest `sep`-free
prefix. -/
theorem pySplit_headD (sep : Char) (l : List Char) :
    (App.pySplit sep l).headD [] = l.takeWhile (fun c => c ≠ sep) := by
  induction l with
  | nil => rfl
  | cons c t ih =>
    simp only [App.pySplit, List.takeWhile_cons]
    by_cases h : c = sep
    · simp [h]
    · cases hp : App.pySplit sep t with
      | nil => exact absurd hp (pySplit_ne_nil sep t)
      | cons r rs =>
        rw [hp] at ih
        simp at ih
        simp [h, ih]

/-- C7: the brand token is the first dot-delimited label of the
hostname (`example` for `example.com`), and the brand/trust score maps
the case-insensitive occurrence count through the bands
(30,∞)→100, (10,30]→80, (3,10]→60, (0,3]→40, 0→20. -/
theorem brand_heuristic_spec :
    (∀ hostname : List Char,
      App.brand_token hostname = hostname.takeWhile (fun c => c ≠ '.')) ∧
    App.brand_token "example.com".toList = "example".toList ∧
    (∀ hostname text : List Char,
      (30 < App.brand_count hostname text →
        App.brand_score hostname text = 100) ∧
      (10 < App.brand_count hostname text ∧
          App.brand_count hostname text ≤ 30 →
        App.brand_score hostname text = 80) ∧
      (3 < App.brand_count hostname text ∧
          App.brand_count hostname text ≤ 10 →
        App.brand_score hostname text = 60) ∧
      (0 < App.brand_count hostname text ∧
          App.brand_count hostname text ≤ 3 →
        App.brand_score hostname text = 40) ∧
      (App.brand_count hostname text = 0 →
        App.brand_score hostname text = 20)) := by
  refine ⟨fun hostname => pySplit_headD '.' hostname,
    by set_option maxRecDepth 4000 in decide,
    fun hostname text => ?_⟩
  refine ⟨?_, ?_, ?_, ?_, ?_⟩ <;>
    (intro h; simp only [App.brand_score]; split_ifs <;> omega)

/-- Witness for `brand_heuristic_spec`: 31 case-insensitive occurrences
score 100; zero occurrences score 20. -/
theorem brand_heuristic_spec_witness :
    App.brand_score "example.com".toList Samples.brandText = 100 ∧
    App.brand_score "example.com".toList "hello".toList = 20 :=
  ⟨(brand_heuristic_spec.2.2 "example.com".toList Samples.brandText).1
      (by set_option maxRecDepth 100000 in decide),
   (brand_heuristic_spec.2.2 "example.com".toList "hello".toList).2.2.2.2
      (by set_option maxRecDepth 4000 in decide)⟩

/-- Appending to `results` in a fold is mapping in input order. -/
theorem foldl_append_eq_map (fetch : App.Url → Except (List Char) App.Soup) :
    ∀ (urls : List App.Url) (acc : List App.Row),
      urls.foldl (fun acc url => acc ++ [App.processOne fetch url]) acc =
        acc ++ urls.map (App.processOne fetch) := by
  intro urls
  induction urls with
  | nil => simp
  | cons u t ih => intro acc; simp [ih]

/-- C4: a failed fetch yields a row whose status embeds the error
description, whose five score fields are all 0 and whose excerpt is
empty; and the batch still contains one row per URL, in input order,
whatever each fetch did. -/
theorem fetch_failure_isolated :
    (∀ fetch url e, fetch url = .error e →
      (App.processOne fetch url).status = "取得失敗: ".toList ++ e ∧
      (App.processOne fetch url).total = 0 ∧
      (App.processOne fetch url).ans = 0 ∧
      (App.processOne fetch url).structured = 0 ∧
      (App.processOne fetch url).faq = 0 ∧
      (App.processOne fetch url).brand = 0 ∧
      (App.processOne fetch url).honbun = []) ∧
    (∀ fetch urls,
      App.runBatch fetch urls = urls.map (App.processOne fetch)) := by
  constructor
  · intro fetch url e h
    simp [App.processOne, h]
  · intro fetch urls
    simpa [App.runBatch] using foldl_append_eq_map fetch urls []

/-- Witness for `fetch_failure_isolated`: a concrete failing fetch. -/
theorem fetch_failure_isolated_witness :
    (App.processOne Samples.failFetch Samples.exampleUrl).status =
        "取得失敗: ".toList ++ "boom".toList ∧
    (App.processOne Samples.failFetch Samples.exampleUrl).total = 0 ∧
    (App.processOne Samples.failFetch Samples.exampleUrl).ans = 0 ∧
    (App.processOne Samples.failFetch Samples.exampleUrl).structured = 0 ∧
    (App.processOne Samples.failFetch Samples.exampleUrl).faq = 0 ∧
    (App.processOne Samples.failFetch Samples.exampleUrl).brand = 0 ∧
    (App.processOne Samples.failFetch Samples.exampleUrl).honbun = [] :=
  fetch_failure_isolated.1 Samples.failFetch Samples.exampleUrl
    "boom".toList rfl

/-- `firstLine` only looks at the part before the first newline. -/
theorem firstLine_append_of_mem :
    ∀ (a b : List Char), '\n' ∈ a →
      App.firstLine (a ++ b) = App.firstLine a := by
  intro a b
  induction a with
  | nil => intro h; simp at h
  | cons c t ih =>
    intro h
    by_cases hc : c = '\n'
    · simp [App.firstLine, List.takeWhile_cons, hc]
    · have ht : '\n' ∈ t := by
        rcases List.mem_cons.mp h with h1 | h1
        · exact absurd h1.symm hc
        · exact h1
      have ih2 := ih ht
      simp only [App.firstLine] at ih2 ⊢
      simp at ih2
      simp [List.takeWhile_cons, hc, ih2]

/-- C5: the per-page LLM report operation is total over every call
outcome; a rate-limit error yields the fixed quota Markdown block, any
other exception yields the generic analysis-error block embedding the
raw error description, and the two blocks have different heading
lines. -/
theorem analyze_page_llm_error_blocks :
    (∀ c, App.analyze_page_with_llm (.success c) = c) ∧
    App.analyze_page_with_llm .rateLimitError = App.rateLimitBlock ∧
    (∀ e, App.analyze_page_with_llm (.otherError e) = App.errorBlock e) ∧
    App.firstLine App.rateLimitBlock =
      "#### ※API利用上限に達しました".toList ∧
    (∀ e, App.firstLine (App.errorBlock e) =
      "#### ※AI詳細診断でエラーが発生しました".toList) ∧
    "#### ※AI詳細診断でエラーが発生しました".toList ≠
      "#### ※API利用上限に達しました".toList ∧
    (∀ e, App.errorBlock e =
      "#### ※AI詳細診断でエラーが発生しました\n\n- エラー内容: ".toList ++
        e ++
        "\n- プロンプトや入力内容を見直すか、時間をおいて再度お試しください。".toList) := by
  refine ⟨fun c => rfl, rfl, fun e => rfl, by decide, fun e => ?_, by decide,
    fun e => rfl⟩
  have h := firstLine_append_of_mem
    "#### ※AI詳細診断でエラーが発生しました\n\n- エラー内容: ".toList
    (e ++
      "\n- プロンプトや入力内容を見直すか、時間をおいて再度お試しください。".toList)
    (by decide)
  simp only [App.errorBlock, List.append_assoc] at h ⊢
  rw [h]
  decide

/-- C9: a data cell whose post-stripping text exceeds 30 characters is
rendered as its first 30 characters plus `...`; otherwise it is
rendered unmodified; and every rendered data cell of a table goes
through exactly this transform. -/
theorem table_cell_truncation :
    (∀ st cell, 30 < (st cell).length →
      PDF.renderCell st cell = (st cell).take 30 ++ "...".toList) ∧
    (∀ st cell, (st cell).length ≤ 30 →
      PDF.renderCell st cell = st cell) ∧
    (∀ st tls r c, r ∈ (PDF.add_table st tls).drop 1 → c ∈ r →
      ∃ cell, c = PDF.renderCell st cell) := by
  refine ⟨fun st cell h => ?_, fun st cell h => ?_,
    fun st tls r c hr hc => ?_⟩
  · simp [PDF.renderCell, h]
  · simp only [PDF.renderCell]
    rw [if_neg (by omega)]
  · rcases tls with _ | ⟨l0, _ | ⟨l1, rest⟩⟩
    · simp [PDF.add_table] at hr
    · simp [PDF.add_table] at hr
    · simp only [PDF.add_table] at hr
      by_cases hh : PDF.parse_row l0 = []
      · simp [hh] at hr
      · rw [if_neg hh] at hr
        simp only [List.drop_succ_cons, List.drop_zero] at hr
        obtain ⟨row, _, hf⟩ := List.mem_filterMap.mp hr
        split_ifs at hf
        cases hf
        obtain ⟨cell, _, rfl⟩ := List.mem_map.mp hc
        exact ⟨cell, rfl⟩

/-- Witness for `table_cell_truncation`: a 31-character cell is
truncated, a short cell is kept, and a rendered data cell of a concrete
table is an image of `renderCell`. -/
theorem table_cell_truncation_witness :
    PDF.renderCell (fun t => t) (List.replicate 31 'a') =
        (List.replicate 31 'a').take 30 ++ "...".toList ∧
    PDF.renderCell (fun t => t) "short".toList = "short".toList ∧
    (∃ cell, "x".toList = PDF.renderCell (fun t => t) cell) :=
  ⟨table_cell_truncation.1 (fun t => t) (List.replicate 31 'a') (by decide),
   table_cell_truncation.2.1 (fun t => t) "short".toList (by decide),
   table_cell_truncation.2.2 (fun t => t)
     ["|h|".toList, "|-|".toList, "|x|".toList] ["x".toList] "x".toList
     (by decide) (by decide)⟩

/-- The collected parts are empty exactly when there is no `h1` and no
`h2`/`h3` (each found heading contributes at least its tagged line). -/
theorem importantParts_eq_nil_iff (soup : App.Soup) :
    App.importantParts soup = [] ↔ soup.h1 = none ∧ soup.h2h3 = [] := by
  rcases soup with ⟨h1, h2h3, bodyText, hasLd⟩
  cases h1 with
  | none =>
    cases h2h3 with
    | nil => simp [App.importantParts]
    | cons a l => simp [App.importantParts]
  | some hh => simp [App.importantParts]

/-- C3: the extractor's output never exceeds 3000 characters; whenever
an `h1`, `h2` or `h3` is present the output is the collected tagged
lines joined by newlines and truncated to 3000; only with no such
heading does it fall back to the full visible text truncated to 3000;
and every collected line is a tagged heading line (starting `[`) or a
bulleted paragraph line (starting `- `). -/
theorem extract_important_sections_spec :
    (∀ soup, (App.extract_important_sections soup).length ≤ 3000) ∧
    (∀ soup, App.importantParts soup = [] ↔
      soup.h1 = none ∧ soup.h2h3 = []) ∧
    (∀ soup, soup.h1.isSome ∨ soup.h2h3 ≠ [] →
      App.extract_important_sections soup =
        (List.intercalate ['\n'] (App.importantParts soup)).take 3000) ∧
    (∀ soup, soup.h1 = none → soup.h2h3 = [] →
      App.extract_important_sections soup = soup.bodyText.take 3000) ∧
    (∀ soup part, part ∈ App.importantParts soup →
      part.take 1 = ['['] ∨ part.take 2 = "- ".toList) := by
  refine ⟨fun soup => ?_, importantParts_eq_nil_iff,
    fun soup h => ?_, fun soup hh1 hh23 => ?_, fun soup part hp => ?_⟩
  · simp only [App.extract_important_sections]
    split <;> simp [List.length_take]
  · have hne : App.importantParts soup ≠ [] := by
      intro hnil
      rw [importantParts_eq_nil_iff] at hnil
      rcases h with h | h
      · rw [hnil.1] at h; simp at h
      · exact h hnil.2
    simp [App.extract_important_sections, hne]
  · have hnil : App.importantParts soup = [] :=
      (importantParts_eq_nil_iff soup).mpr ⟨hh1, hh23⟩
    simp [App.extract_important_sections, hnil]
  · simp only [App.importantParts] at hp
    rcases List.mem_append.mp hp with h | h
    · cases hh1 : soup.h1 with
      | none => rw [hh1] at h; simp at h
      | some hh =>
        rw [hh1] at h
        rcases List.mem_cons.mp h with rfl | h2
        · left; rfl
        · cases hnp : hh.nextP with
          | none => rw [hnp] at h2; simp at h2
          | some p =>
            rw [hnp] at h2
            rcases List.mem_cons.mp h2 with rfl | h3
            · right; rfl
            · simp at h3
    · obtain ⟨tag, _, hmem⟩ := List.mem_flatMap.mp h
      rcases List.mem_cons.mp hmem with rfl | h2
      · left; rfl
      · cases hnp : tag.nextP with
        | none => rw [hnp] at h2; simp at h2
        | some p =>
          rw [hnp] at h2
          rcases List.mem_cons.mp h2 with rfl | h3
          · right; rfl
          · simp at h3

/-- Witness for `extract_important_sections_spec`: a page with headings
takes the tagged form, a page without falls back to the body text. -/
theorem extract_important_sections_spec_witness :
    App.extract_important_sections Samples.headedSoup =
        (List.intercalate ['\n']
          (App.importantParts Samples.headedSoup)).take 3000 ∧
    App.extract_important_sections Samples.plainSoup =
        Samples.plainSoup.bodyText.take 3000 :=
  ⟨extract_important_sections_spec.2.2.1 Samples.headedSoup (Or.inl rfl),
   extract_important_sections_spec.2.2.2.1 Samples.plainSoup rfl rfl⟩

/-- Right-stripping only removes characters from the end. -/
theorem pyRstrip_prefix (s : List Char) : App.pyRstrip s <+: s := by
  have h := List.dropWhile_suffix (l := s.reverse) (p := Char.isWhitespace)
  have h2 := List.reverse_prefix.mpr h
  simpa [App.pyRstrip] using h2

/-- C10: a table block consisting of a single `|`-starting line (the
next line, when present, does not start with `|`) renders nothing at
all — `add_markdown` of the input equals `add_markdown` with the line
removed. -/
theorem single_line_table_renders_nothing (st : List Char → List Char)
    (l : List Char) (rest : List (List Char))
    (h1 : (App.pyStrip (App.pyRstrip l)).take 1 = ['|'])
    (h2 : ∀ r, rest.head? = some r → PDF.startsPipe r = false) :
    PDF.add_markdown st (l :: rest) = PDF.add_markdown st rest := by
  obtain ⟨tl, htl⟩ : ∃ tl, App.pyStrip (App.pyRstrip l) = '|' :: tl := by
    cases hs : App.pyStrip (App.pyRstrip l) with
    | nil => rw [hs] at h1; simp at h1
    | cons a t2 =>
      rw [hs] at h1
      simp at h1
      exact ⟨t2, by rw [h1]⟩
  have hfence :
      ("```".toList.isPrefixOf (App.pyStrip (App.pyRstrip l))) = false := by
    rw [htl]; rfl
  have hnonempty : App.pyRstrip l ≠ [] := by
    intro h0
    rw [h0] at htl
    simp [App.pyStrip, App.pyRstrip] at htl
  have hhash : (App.pyRstrip l).take 1 ≠ ['#'] := by
    intro hc
    obtain ⟨t2, ht2⟩ : ∃ t2, App.pyRstrip l = '#' :: t2 := by
      cases hl : App.pyRstrip l with
      | nil => rw [hl] at hc; simp at hc
      | cons a t2 => rw [hl] at hc; simp at hc; exact ⟨t2, by rw [hc]⟩
    have hws : Char.isWhitespace '#' = false := rfl
    have hps : App.pyStrip (App.pyRstrip l) = App.pyRstrip (App.pyRstrip l) := by
      rw [App.pyStrip, ht2, List.dropWhile_cons, hws]
      simp [← ht2]
    have hpref := pyRstrip_prefix (App.pyRstrip l)
    rw [← hps, htl, ht2] at hpref
    obtain ⟨t3, ht3⟩ := hpref
    simp at ht3
  have hpipe : PDF.startsPipe (App.pyRstrip l) = true := by
    simp [PDF.startsPipe, htl]
  have htw : rest.takeWhile PDF.startsPipe = [] := by
    cases rest with
    | nil => rfl
    | cons r rs => rw [List.takeWhile_cons]; simp [h2 r rfl]
  have hdw2 : rest.dropWhile PDF.startsPipe = rest := by
    cases rest with
    | nil => rfl
    | cons r rs => rw [List.dropWhile_cons]; simp [h2 r rfl]
  simp only [PDF.add_markdown, List.length_cons, PDF.add_markdown_aux]
  rw [if_neg (by rw [hfence]; simp), if_neg hnonempty, if_neg hhash,
    if_pos hpipe, htw, hdw2]
  simp [PDF.add_table]

/-- Witness for `single_line_table_renders_nothing`: a lone header line
followed by a plain-text line. -/
theorem single_line_table_renders_nothing_witness :
    PDF.add_markdown (fun t => t) ["| 観点 |".toList, "text".toList] =
      PDF.add_markdown (fun t => t) ["text".toList] :=
  single_line_table_renders_nothing (fun t => t) "| 観点 |".toList
    ["text".toList] (by decide)
    (by rintro r hr; cases hr; decide)

/-- Every cell produced by `parse_row` is non-empty. -/
theorem parse_row_mem_ne_nil {row cell : List Char}
    (hc : cell ∈ PDF.parse_row row) : cell ≠ [] := by
  simp only [PDF.parse_row] at hc
  simpa using (List.mem_filter.mp hc).2

/-- On a row with no parsed cells the code's separator test is `false`
while the claim's every-cell test is vacuously `true`. -/
theorem sep_parse_nil (row : List Char) (h : PDF.parse_row row = []) :
    PDF.is_separator_row row = false ∧ PDF.specIsSeparatorRow row = true := by
  constructor
  · simp [PDF.is_separator_row, h]
  · simp [PDF.specIsSeparatorRow, h]

/-- On a row with at least one parsed cell the code's separator test and
the claim's every-cell test agree (parsed cells are never empty, so the
regex's non-emptiness requirement is automatic). -/
theorem sep_eq_of_parse_ne_nil (row : List Char)
    (h : PDF.parse_row row ≠ []) :
    PDF.is_separator_row row = PDF.specIsSeparatorRow row := by
  simp only [PDF.is_separator_row, PDF.specIsSeparatorRow]
  rw [if_neg h]
  rw [Bool.eq_iff_iff, List.all_eq_true, List.all_eq_true]
  constructor
  · intro ha cell hc
    have h2 := ha cell hc
    simp [PDF.sepCellMatch] at h2
    simpa using h2.2
  · intro ha cell hc
    have hne : cell ≠ [] := parse_row_mem_ne_nil hc
    simp [PDF.sepCellMatch, hne]
    simpa using ha cell hc

/-- C8 counterexample: with header `|a|b|` the data row `|x||y|` parses
(per the claim's leading/trailing-only dropping) to 3 cells against a
2-cell header, so per the claim it must be skipped entirely — yet the
code renders it, because the code drops the interior empty cell too. -/
theorem add_table_claim_counterexample :
    (PDF.claimParseRow "|x||y|".toList).length ≠
        (PDF.claimParseRow "|a|b|".toList).length ∧
    PDF.add_table (fun t => t)
        ["|a|b|".toList, "|---|---|".toList, "|x||y|".toList] =
      [["a".toList, "b".toList], ["x".toList, "y".toList]] := by
  set_option maxRecDepth 10000 in decide

/-- C8 (amended): with rows parsed by splitting on `|`, trimming and
dropping every empty cell, the rendered table is exactly the claim's
pipeline: first row is the header, the second row is discarded exactly
when separator-style, and a data row is rendered exactly when it is not
separator-style, its cell count matches the header's and not all its
cells are empty. -/
theorem add_table_matches_spec (st : List Char → List Char)
    (tls : List (List Char)) (h : 2 ≤ tls.length) :
    PDF.add_table st tls = PDF.specAddTable st tls := by
  rcases tls with _ | ⟨l0, _ | ⟨l1, rest⟩⟩
  · simp at h
  · simp at h
  · clear h
    simp only [PDF.add_table, PDF.specAddTable]
    by_cases hh : PDF.parse_row l0 = []
    · simp [hh]
    · rw [if_neg hh, if_neg hh]
      have hlen0 : 0 < (PDF.parse_row l0).length := List.length_pos.mpr hh
      have hfun : ∀ row : List Char,
          (if PDF.is_separator_row row then none
           else
             if (PDF.parse_row row).length ≠ (PDF.parse_row l0).length then
               none
             else
               if (PDF.parse_row row).all
                   (fun cell => App.pyStrip cell = []) then none
               else
                 some ((PDF.parse_row row).map (PDF.renderCell st))) =
          (if !PDF.specIsSeparatorRow row &&
              (PDF.parse_row row).length == (PDF.parse_row l0).length &&
              !(PDF.parse_row row).all
                (fun cell => (App.pyStrip cell).isEmpty) then
            some ((PDF.parse_row row).map (PDF.renderCell st))
          else none) := by
        intro row
        by_cases hp : PDF.parse_row row = []
        · have hs := sep_parse_nil row hp
          rw [hs.1, hs.2]
          simp only [hp, List.length_nil, Bool.false_eq_true, if_false]
          rw [if_pos (by omega)]
          simp
        · rw [sep_eq_of_parse_ne_nil row hp]
          by_cases hsep : PDF.specIsSeparatorRow row = true
          · simp [hsep]
          · by_cases hlen :
                (PDF.parse_row row).length = (PDF.parse_row l0).length
            · by_cases hemp : (PDF.parse_row row).all
                  (fun cell => App.pyStrip cell = []) = true
              · have hnot : ¬ ∃ x ∈ PDF.parse_row row,
                    ¬ App.pyStrip x = [] := by
                  rintro ⟨x, hx, hnx⟩
                  exact hnx (by simpa using List.all_eq_true.mp hemp x hx)
                simp [hsep, hlen, hemp, List.isEmpty_iff, hnot]
              · have hex : ∃ x ∈ PDF.parse_row row,
                    ¬ App.pyStrip x = [] := by
                  simpa using hemp
                simp [hsep, hlen, hemp, List.isEmpty_iff, hex]
            · simp [hsep, hlen]
      congr 1
      by_cases hp1 : PDF.parse_row l1 = []
      · have hs := sep_parse_nil l1 hp1
        rw [hs.1, hs.2]
        simp only [Bool.false_eq_true, if_false, if_true]
        rw [List.filterMap_cons]
        have hf1 :
            (if PDF.is_separator_row l1 then none
             else
               if (PDF.parse_row l1).length ≠ (PDF.parse_row l0).length then
                 (none : Option (List (List Char)))
               else
                 if (PDF.parse_row l1).all
                     (fun cell => App.pyStrip cell = []) then none
                 else
                   some ((PDF.parse_row l1).map (PDF.renderCell st))) =
              none := by
          rw [hs.1]
          simp only [hp1, List.length_nil, Bool.false_eq_true, if_false]
          rw [if_pos (by omega)]
        rw [hf1]
        exact List.filterMap_congr (fun x _ => hfun x)
      · rw [sep_eq_of_parse_ne_nil l1 hp1]
        by_cases hsep1 : PDF.specIsSeparatorRow l1 = true
        · rw [if_pos hsep1]
          exact List.filterMap_congr (fun x _ => hfun x)
        · rw [if_neg hsep1]
          exact List.filterMap_congr (fun x _ => hfun x)

/-- Witness for `add_table_matches_spec`: a concrete table with a
separator row, a mismatched row and an ordinary data row. -/
theorem add_table_matches_spec_witness :
    PDF.add_table (fun t => t)
        ["|a|b|".toList, "|---|---|".toList, "|1|2|3|".toList,
          "|x|y|".toList] =
      PDF.specAddTable (fun t => t)
        ["|a|b|".toList, "|---|---|".toList, "|1|2|3|".toList,
          "|x|y|".toList] :=
  add_table_matches_spec (fun t => t)
    ["|a|b|".toList, "|---|---|".toList, "|1|2|3|".toList, "|x|y|".toList]
    (by norm_num)

end Theorems
